import Mathlib

/-!
Verification development for the EnvJSC core: the dot-path key/value store
(`store.get` / `store.set` / `store.delete`) and the document-collection layer
(`matchesQuery`, `Collection.insert` / `find` / `findOne` / `update` /
`remove` / `count`) as implemented in the repository source.

Shallow-embedding conventions, stated once here:

* JSON-style runtime values are modelled by `JVal` (null, booleans, numbers,
  strings, objects).  JavaScript numbers are modelled as integers; no claim
  under consideration involves float-specific behaviour.  JSON arrays inside
  stored values are modelled, as the repository documentation itself puts it,
  as mappings with numeric-string keys; the collection layer's document array
  is modelled separately as a Lean `List`.
* An object is a `List (String × JVal)` in property-insertion order.
  JavaScript objects never carry a duplicate key; where a proof needs this,
  the well-formedness predicate `JVal.wfB` makes it explicit.
* `undefined` is modelled as the absence of a key (`Option.none` from a
  lookup); object fields whose stored value is the `undefined` sentinel are
  out of the model.
* `===` on two object references is modelled as `false` (distinct literals
  are distinct references in every scenario the claims mention); on
  primitives it is structural equality.
* `JSON.parse(JSON.stringify(x))` on a defined JSON value is the identity in
  this model, so the deep copies the source takes before returning values are
  omitted.
* The plain store and collection definitions model property access on own
  keys only; that is faithful for every claim whose key sets avoid the
  prototype chain.  The store round-trip is the exception: there the
  `__proto__` accessor inherited from `Object.prototype` matters, and the
  refined model (`PVal`, `readOwnOrInherited`, `store.getCur`,
  `store.setCur`) adds the default prototype chain of plain objects — the
  `__proto__` accessor, the `Object.prototype` host object, its builtin
  function members, and its runtime-added (polluted) data keys.
  Prototype-mutating writes (assigning an object or `null` through the
  `__proto__` setter) and writes that descend into the shared
  `Object.prototype` or into an object inherited from it are outside the
  refined model: `setCur` returns `none` for them, and no theorem relies on
  those corners.
* Operations that can throw a runtime `TypeError`/`SyntaxError` in the source
  are embedded in `Except String`; the message text is descriptive only.
  The source file is an ES module, hence strict mode: assigning a property on
  a primitive value throws.
-/

/-- JSON-style runtime value: the value universe of the store and of
collection documents. -/
inductive JVal where
  | jnull
  | jbool (b : Bool)
  | jnum (n : Int)
  | jstr (s : String)
  | jobj (fields : List (String × JVal))

/-- Test `typeof v === 'object'` (true for objects and for `null`). -/
def JVal.typeofObject : JVal → Bool
  | .jobj _ => true
  | .jnull => true
  | _ => false

/-- Is the value an actual (non-null) object? -/
def JVal.isObj : JVal → Bool
  | .jobj _ => true
  | _ => false

/-- JavaScript truthiness of a `JVal`. -/
def JVal.truthy : JVal → Bool
  | .jnull => false
  | .jbool b => b
  | .jnum n => n != 0
  | .jstr s => s ≠ ""
  | .jobj _ => true

/-- JavaScript strict equality `===` on `JVal`s: structural on primitives;
two object operands are modelled as distinct references, hence `false` (every
scenario the claims mention compares freshly constructed literals). -/
def jsStrictEq : JVal → JVal → Bool
  | .jnull, .jnull => true
  | .jbool a, .jbool b => a == b
  | .jnum a, .jnum b => a == b
  | .jstr a, .jstr b => a == b
  | _, _ => false

/-- First-occurrence lookup of a key in an object's field list
(`obj[key]`, with absence standing for `undefined`). -/
def lookupField : List (String × JVal) → String → Option JVal
  | [], _ => none
  | (k, v) :: rest, key => if k = key then some v else lookupField rest key

/-- Assignment `obj[key] = v`: replace the first occurrence of `key` in place, keeping
property order, or append the key when absent (JavaScript assignment
semantics on plain objects). -/
def setKey : List (String × JVal) → String → JVal → List (String × JVal)
  | [], key, v => [(key, v)]
  | (k, w) :: rest, key, v =>
      if k = key then (key, v) :: rest else (k, w) :: setKey rest key v

/-- Deletion `delete obj[key]`: remove the first occurrence of `key` (a JavaScript
object has at most one). -/
def eraseField : List (String × JVal) → String → List (String × JVal)
  | [], _ => []
  | (k, w) :: rest, key =>
      if k = key then rest else (k, w) :: eraseField rest key

/-- Well-formedness of a value as a JavaScript runtime value: every object in
the tree has pairwise-distinct keys.  Every state reachable in the source
satisfies this. -/
def JVal.wfB : JVal → Bool
  | .jobj [] => true
  | .jobj ((k, v) :: rest) =>
      !(rest.any (fun p => p.1 == k)) && JVal.wfB v && JVal.wfB (.jobj rest)
  | _ => true

/-- Splitter for `keyPath.split('.')` of the source, structurally recursive on
the character list: `acc` holds the characters of the current segment in
reverse.  For a one-character plain-string separator, JavaScript
`String.prototype.split` is exactly this segmentation (empty input gives
`['']`, adjacent dots give empty segments, a trailing dot gives a trailing
empty segment). -/
def splitDotsAux : List Char → List Char → List String
  | [], acc => [String.mk acc.reverse]
  | c :: cs, acc =>
      if c = '.' then String.mk acc.reverse :: splitDotsAux cs []
      else splitDotsAux cs (c :: acc)

/-- Embeds `keyPath.split('.')`: dot-paths resolve to their segment list; there is
no bracket syntax in the source, `[` and `]` are ordinary key characters. -/
def splitPath (p : String) : List String := splitDotsAux p.toList []

theorem splitDotsAux_ne_nil (cs acc : List Char) : splitDotsAux cs acc ≠ [] := by
  induction cs generalizing acc with
  | nil => simp [splitDotsAux]
  | cons c cs ih =>
      rw [splitDotsAux]
      split
      · simp
      · exact ih _

/-- Splitting on dots never returns the empty list. -/
theorem splitPath_ne_nil (p : String) : splitPath p ≠ [] :=
  splitDotsAux_ne_nil _ _

/-- Own property names of `Object.prototype` other than the `__proto__`
accessor: the builtin function members every plain object inherits.  Reads
of these yield values of `typeof` `'function'`; assignments shadow them with
an own key. -/
def protoBuiltins : List String :=
  ["constructor", "hasOwnProperty", "isPrototypeOf", "propertyIsEnumerable",
   "toLocaleString", "toString", "valueOf",
   "__defineGetter__", "__defineSetter__", "__lookupGetter__", "__lookupSetter__"]

/-- Result of a property read in the prototype-aware store model: a
JSON-representable value, the `Object.prototype` host object itself (what
reading an unshadowed `__proto__` slot yields), or one of its builtin
function members. -/
inductive PVal where
  | json (v : JVal)
  | protoObject
  | builtinFun (k : String)

/-- Read `obj[k]` (and decide `k in obj`) on an ordinary plain object with
own fields `fs`, following the default prototype chain: own key first; then
the `__proto__` accessor of `Object.prototype`, whose getter returns the
prototype object; then the JSON-valued keys `pr` added to
`Object.prototype` at runtime (none at process start); then its builtin
function members.  `none` is `undefined` (the key is absent from the whole
chain). -/
def readOwnOrInherited (fs pr : List (String × JVal)) (k : String) : Option PVal :=
  match lookupField fs k with
  | some v => some (.json v)
  | none =>
      if k = "__proto__" then some .protoObject
      else
        match lookupField pr k with
        | some v => some (.json v)
        | none => if protoBuiltins.contains k then some (.builtinFun k) else none

/-- Read `P[k]` on `P = Object.prototype` itself: its own `__proto__`
accessor yields `null` (the end of the chain), then its runtime-added keys
`pr` (which shadow replaced builtins), then the remaining builtins; `P` has
no prototype of its own to continue on. -/
def readOnProto (pr : List (String × JVal)) (k : String) : Option PVal :=
  if k = "__proto__" then some (.json .jnull)
  else
    match lookupField pr k with
    | some v => some (.json v)
    | none => if protoBuiltins.contains k then some (.builtinFun k) else none

namespace store

/-- Traversal core of `store.get`: walk the segments; return `none`
(JavaScript: the caller-supplied default) as soon as the current value is
`null`, not an object, or lacks the segment key. -/
def getPath : JVal → List String → Option JVal
  | v, [] => some v
  | v, k :: ks =>
      match v with
      | .jobj fields =>
          match lookupField fields k with
          | some w => getPath w ks
          | none => none
      | _ => none

/-- Embeds `store.get(keyPath, defaultValue)` on a root value. -/
def get (root : JVal) (keyPath : String) (defaultValue : JVal) : JVal :=
  (getPath root (splitPath keyPath)).getD defaultValue

/-- Traversal core of `store.set` on the segment list.  For every segment but
the last: if the current value is not an object the operation soft-fails with
a logged error (no mutation); otherwise, when the segment key is absent or
its value is not a non-null object, that slot is overwritten with a fresh
empty object, and traversal descends.  At the last segment the key is
assigned when the current value is an object, else the operation soft-fails
with a logged error.  The empty segment list is unreachable from
`store.set` because `split` never produces it. -/
def setPath : JVal → List String → JVal → JVal
  | root, [], _ => root
  | root, k :: ks, v =>
      match root with
      | .jobj fields =>
          match ks with
          | [] => .jobj (setKey fields k v)
          | _ :: _ =>
              let child : JVal :=
                match lookupField fields k with
                | some (.jobj f) => .jobj f
                | _ => .jobj []
              .jobj (setKey fields k (setPath child ks v))
      | _ => root

/-- Embeds `store.set(keyPath, value)` on a root value. -/
def set (root : JVal) (keyPath : String) (value : JVal) : JVal :=
  setPath root (splitPath keyPath) value

/-- Traversal core of `store.delete`.  Walking to the parent of the final
segment: if the current value is `null`, not an object, or lacks the segment
key, the call is a logged no-op.  At the parent, the final key is removed
when present, else the call is a logged no-op. -/
def deletePath : JVal → List String → JVal
  | root, [] => root
  | root, k :: ks =>
      match root with
      | .jobj fields =>
          match ks with
          | [] => .jobj (eraseField fields k)
          | _ :: _ =>
              match lookupField fields k with
              | some child => .jobj (setKey fields k (deletePath child ks))
              | none => .jobj fields
      | _ => root

/-- Embeds `store.delete(keyPath)` on a root value. -/
def delete (root : JVal) (keyPath : String) : JVal :=
  deletePath root (splitPath keyPath)

/-- Embeds `store.get(keyPath, default)` with a dynamically typed `keyPath`
argument: the source immediately evaluates `keyPath.split('.')`, which
throws a `TypeError` for every non-string argument (no `JVal` carries a
callable `split` member). -/
def getDyn (root : JVal) (keyPath : JVal) (defaultValue : JVal) : Except String JVal :=
  match keyPath with
  | .jstr s => .ok (get root s defaultValue)
  | _ => .error "TypeError: keyPath.split is not a function"

/-- Prototype-aware traversal core of `store.get`.  Identical control flow to
`getPath` — return the default as soon as the current value is `null`, not of
`typeof` `'object'`, or lacks the segment key — but property reads and the
`in` test follow the default prototype chain (`readOwnOrInherited` on
ordinary objects, `readOnProto` on `Object.prototype` itself; `pr` is the
runtime-added content of `Object.prototype`).  A builtin function member
fails the `typeof` check when traversed through, exactly as in the
source. -/
def getCur : PVal → List String → List (String × JVal) → Option PVal
  | v, [], _ => some v
  | v, k :: ks, pr =>
      match v with
      | .json (.jobj fs) =>
          match readOwnOrInherited fs pr k with
          | some w => getCur w ks pr
          | none => none
      | .protoObject =>
          match readOnProto pr k with
          | some w => getCur w ks pr
          | none => none
      | _ => none

/-- Prototype-aware `store.get(keyPath, defaultValue)` on a root whose
`Object.prototype` holds the runtime-added keys `pr` (empty at process
start). -/
def getP (root pr : List (String × JVal)) (keyPath : String) (defaultValue : JVal) : PVal :=
  (getCur (.json (.jobj root)) (splitPath keyPath) pr).getD (.json defaultValue)

/-- Outcome of handing `v` to the inherited `Object.prototype.__proto__`
setter: an object or `null` would mutate the receiver's prototype (outside
the model), any other value is silently ignored and the state is kept. -/
def protoSetterResult (fs : List (String × JVal)) : JVal → Option (List (String × JVal))
  | .jobj _ => none
  | .jnull => none
  | _ => some fs

/-- Final-segment assignment `current[lastKey] = value` on an ordinary
object: an own key (even an own `__proto__` data key, as `JSON.parse` can
create) is written in place; with no own key, the segment `__proto__`
reaches the inherited setter (`protoSetterResult`); any other segment
writes an own key, shadowing inherited data members. -/
def assignFinal (fs : List (String × JVal)) (k : String) (v : JVal) :
    Option (List (String × JVal)) :=
  match lookupField fs k with
  | some _ => some (setKey fs k v)
  | none =>
      if k = "__proto__" then protoSetterResult fs v
      else some (setKey fs k v)

/-- Does the chain lookup for an absent own key land on an inherited
object?  Exactly then the source's intermediate step descends into a value
shared through `Object.prototype` instead of creating an own `{}`. -/
def inheritedBlocks (pr : List (String × JVal)) (k : String) : Bool :=
  match lookupField pr k with
  | some (.jobj _) => true
  | _ => false

/-- Prototype-aware traversal core of `store.set`, same control flow as
`setPath` with JavaScript assignment semantics on the default prototype
chain.  The final segment is `assignFinal` (note: an unshadowed `__proto__`
final segment silently swallows a primitive value — the call still completes
and persists, but no own key is written).  At an intermediate segment: an
own non-object value is overwritten with `{}` as in `setPath`; an absent
key, an inherited builtin function, or an inherited primitive also produce
an own `{}` (the source's in/`typeof` test sends all three to the overwrite
branch); descending into the shared `Object.prototype` (an unshadowed
`__proto__` segment) or into an object inherited from it
(`inheritedBlocks`) is outside the model (`none`). -/
def setCur : List (String × JVal) → List String → JVal → List (String × JVal) →
    Option (List (String × JVal))
  | fs, [], _, _ => some fs
  | fs, k :: ks, v, pr =>
      match ks with
      | [] => assignFinal fs k v
      | _ :: _ =>
          match lookupField fs k with
          | some (.jobj f) => (setCur f ks v pr).map fun f2 => setKey fs k (.jobj f2)
          | some _ => (setCur [] ks v pr).map fun c2 => setKey fs k (.jobj c2)
          | none =>
              if k = "__proto__" then none
              else if inheritedBlocks pr k then none
              else (setCur [] ks v pr).map fun c2 => setKey fs k (.jobj c2)

/-- Prototype-aware `store.set(keyPath, value)` on a root whose
`Object.prototype` holds the runtime-added keys `pr`; `none` marks the
prototype-mutating corners outside the model. -/
def setP (root pr : List (String × JVal)) (keyPath : String) (value : JVal) :
    Option (List (String × JVal)) :=
  setCur root (splitPath keyPath) value pr

end store

/-- Own enumerable fields of a value, as read by `Object.keys`/`for..in` on a
value already known to be an object (the only way the source reaches them). -/
def fieldsOf : JVal → List (String × JVal)
  | .jobj fs => fs
  | _ => []

/-- Own enumerable fields contributed by an object spread `{ ...v }` (also
the keys visited by `for..in` over `v`): an object's fields; a string's
character-index fields; nothing for `null`, booleans and numbers. -/
def spreadFields : JVal → List (String × JVal)
  | .jobj fs => fs
  | .jstr s => s.toList.enum.map fun p => (toString p.1, JVal.jstr (String.mk [p.2]))
  | _ => []

/-- Spread-merge `{ ...a, ...b }`: the fields of `a`, each key of `b` then assigned in
order (overwriting in place or appending). -/
def mergeFields (a b : List (String × JVal)) : List (String × JVal) :=
  b.foldl (fun acc kv => setKey acc kv.1 kv.2) a

/-- Property read `doc[key]` where `doc` is an arbitrary runtime value: a primitive has no
own keys (reads give `undefined`).  Reading a property of `null` or
`undefined` throws in JavaScript; theorems quantifying over document lists
therefore carry the hypothesis that every document is an object. -/
def propGet (doc : JVal) (key : String) : Option JVal :=
  match doc with
  | .jobj fs => lookupField fs key
  | _ => none

/-- Comparison `doc[key] === query[key]` where the left side may be `undefined`
(modelled as `none`, equal to no `JVal`). -/
def undefEq (o : Option JVal) (v : JVal) : Bool :=
  match o with
  | some w => jsStrictEq w v
  | none => false

/-- Embeds `matchesQuery(doc, query)`: a falsy, non-object or empty query matches
every document; otherwise every query field must be strictly equal on the
document. -/
def matchesQuery (doc query : JVal) : Bool :=
  if !query.truthy || !query.typeofObject || (fieldsOf query).isEmpty then true
  else (fieldsOf query).all fun kv => undefEq (propGet doc kv.1) kv.2

namespace Collection

/-- Argument shape of `Collection.insert`: the source branches on
`Array.isArray(docOrArray)`. -/
inductive InsertArg where
  | one (v : JVal)
  | many (vs : List JVal)

/-- Result shape of `Collection.insert`: an array argument returns the array
of accepted documents, a single argument returns `insertedItems[0] || null`
(accepted documents are objects, hence truthy, so this is the head when one
exists). -/
inductive InsertResult where
  | one (r : Option JVal)
  | many (rs : List JVal)

/-- The `for (const doc of toInsert)` loop of `Collection.insert`: skip
non-objects (`typeof doc !== 'object' || doc === null`) with a warning;
shallow-copy accepted documents, generate an `_id` when the key is absent
(`gen` supplies the values produced by `generateId()`, numbered in order),
and push.  Returns (documents appended, items returned). -/
def insertLoop (gen : Nat → String) : List JVal → Nat → List JVal × List JVal
  | [], _ => ([], [])
  | d :: rest, k =>
      match d with
      | .jobj fs =>
          if (lookupField fs "_id").isNone then
            let nd : JVal := .jobj (setKey fs "_id" (.jstr (gen k)))
            let (a, i) := insertLoop gen rest (k + 1)
            (nd :: a, nd :: i)
          else
            let nd : JVal := .jobj fs
            let (a, i) := insertLoop gen rest k
            (nd :: a, nd :: i)
      | _ => insertLoop gen rest k

/-- Embeds `Collection.insert(docOrArray)` on the in-memory document array. -/
def insert (docs : List JVal) (arg : InsertArg) (gen : Nat → String) :
    List JVal × InsertResult :=
  let toIns := match arg with | .one v => [v] | .many vs => vs
  let (accepted, items) := insertLoop gen toIns 0
  (docs ++ accepted,
   match arg with
   | .many _ => .many items
   | .one _ => .one items.head?)

/-- Embeds `Collection.find(query)`: all matches, in array order (deep copies in the
source, the identity here). -/
def find (docs : List JVal) (q : JVal) : List JVal :=
  docs.filter fun d => matchesQuery d q

/-- Embeds `Collection.findOne(query)`: first match in array order, `null` when
none. -/
def findOne (docs : List JVal) (q : JVal) : Option JVal :=
  docs.find? fun d => matchesQuery d q

/-- Embeds `Collection.count(query)`: the full length for a falsy, non-object or
empty query, else the number of matches. -/
def count (docs : List JVal) (q : JVal) : Nat :=
  if !q.truthy || !q.typeofObject || (fieldsOf q).isEmpty then docs.length
  else (docs.filter fun d => matchesQuery d q).length

/-- Second argument of `Collection.update`: a plain data object to
shallow-merge, or a transform function (`none` models a function call that
returns `undefined`). -/
inductive UpdateArg where
  | data (u : List (String × JVal))
  | fn (f : JVal → Option JVal)

/-- Body of the `Collection.update` match loop for one matched document
`d`: compute `modifiedDoc` (merge for a data object, call for a function),
then run the `_id`-restore guard
`if (orig._id && (typeof mod._id === 'undefined' || mod._id !== orig._id))
mod._id = orig._id`.
Throw cases, faithful to strict mode: when `orig._id` is truthy, reading
`._id` of an `undefined` or `null` result throws, and assigning `._id` on a
primitive result throws; when `orig._id` is falsy or absent, an `undefined`
result reaches `JSON.parse(JSON.stringify(undefined))` in the result push,
which throws.  (The source mutates `documents[i]` before the push throws;
no claim observes the array after a throw, so the model discards that
partial write.) -/
def updateOneDoc (d : JVal) (upd : UpdateArg) : Except String JVal :=
  let res : Option JVal :=
    match upd with
    | .data u => some (.jobj (mergeFields (spreadFields d) u))
    | .fn f => f d
  match propGet d "_id" with
  | some idv =>
      if idv.truthy then
        match res with
        | none => .error "TypeError: reading _id of undefined"
        | some .jnull => .error "TypeError: reading _id of null"
        | some (.jobj mfs) =>
            (match lookupField mfs "_id" with
             | none => .ok (.jobj (setKey mfs "_id" idv))
             | some mid =>
                 if jsStrictEq mid idv then .ok (.jobj mfs)
                 else .ok (.jobj (setKey mfs "_id" idv)))
        | some _ => .error "TypeError: creating _id on a primitive"
      else
        match res with
        | none => .error "SyntaxError: JSON stringify-parse of undefined"
        | some m => .ok m
  | none =>
      match res with
      | none => .error "SyntaxError: JSON stringify-parse of undefined"
      | some m => .ok m

/-- The `for (let i = documents.length - 1; i >= 0; i--)` loop of
`Collection.update`, acting on the reversed document list (the source scans
from the highest index down; without `multi` it breaks after the first hit
of that scan, leaving the remaining — lower-index — documents untouched).
Returns (new reversed list, updatedCount, updatedResultDocs in push
order). -/
def updateRev (q : JVal) (upd : UpdateArg) (multi : Bool) :
    List JVal → Except String (List JVal × Nat × List JVal)
  | [] => .ok ([], 0, [])
  | d :: rest =>
      if matchesQuery d q then
        match updateOneDoc d upd with
        | .error e => .error e
        | .ok nd =>
            if multi then
              match updateRev q upd multi rest with
              | .error e => .error e
              | .ok (r, c, resD) => .ok (nd :: r, c + 1, nd :: resD)
            else .ok (nd :: rest, 1, [nd])
      else
        match updateRev q upd multi rest with
        | .error e => .error e
        | .ok (r, c, resD) => .ok (d :: r, c, resD)

/-- For each own key of the query visited by `for (const qKey in query)`:
`if (typeof newDoc[qKey] === 'undefined') newDoc[qKey] = query[qKey]`. -/
def fillMissing (nfs qfs : List (String × JVal)) : List (String × JVal) :=
  qfs.foldl
    (fun acc kv => if (lookupField acc kv.1).isNone then setKey acc kv.1 kv.2 else acc)
    nfs

/-- The upsert branch of `Collection.update` (reached when no document
matched and `options.upsert` is set): for a data object,
`newDoc = { ...query, ...updateData }`; for a function, the query spread is
passed to the function and the query's keys are merged into whatever it
returns.  Either way a missing `_id` is filled with `generateId()`.
A function result that is not an object throws before the push: property
access on `undefined`/`null` throws, and in strict mode so does the eventual
`newDoc._id = generateId()` (or `newDoc[qKey] = ...`) on a primitive. -/
def upsertDoc (q : JVal) (upd : UpdateArg) (gen : Nat → String) : Except String JVal :=
  match upd with
  | .data u =>
      let base := mergeFields (spreadFields q) u
      let withId :=
        if (lookupField base "_id").isNone then setKey base "_id" (.jstr (gen 0)) else base
      .ok (.jobj withId)
  | .fn f =>
      match f (.jobj (spreadFields q)) with
      | some (.jobj nfs) =>
          let nfs2 := fillMissing nfs (spreadFields q)
          let withId :=
            if (lookupField nfs2 "_id").isNone then setKey nfs2 "_id" (.jstr (gen 0)) else nfs2
          .ok (.jobj withId)
      | some .jnull => .error "TypeError: property access on null"
      | some _ => .error "TypeError: property assignment on a primitive"
      | none => .error "TypeError: property access on undefined"

/-- Embeds `Collection.update(query, updateDataOrFn, options)` on the in-memory
document array: reverse scan with per-document update (early break without
`multi`), then the upsert branch when nothing matched (`docFound` is
equivalent to a non-zero count on every non-throwing run).  Returns the new
array, `updatedCount` and `updatedDocs`. -/
def update (docs : List JVal) (q : JVal) (upd : UpdateArg) (multi upsert : Bool)
    (gen : Nat → String) : Except String (List JVal × Nat × List JVal) :=
  match updateRev q upd multi docs.reverse with
  | .error e => .error e
  | .ok (rev2, cnt, resD) =>
      let newDocs := rev2.reverse
      if cnt = 0 && upsert then
        match upsertDoc q upd gen with
        | .error e => .error e
        | .ok nd => .ok (newDocs ++ [nd], 1, resD ++ [nd])
      else .ok (newDocs, cnt, resD)

/-- The `for (let i = documents.length - 1; i >= 0; i--)` loop of
`Collection.remove` on the reversed list: splice out each match; without
`multi`, break after the first hit of the backward scan (so the lower-index
documents are kept unexamined). -/
def removeRev (q : JVal) (multi : Bool) : List JVal → List JVal × Nat
  | [] => ([], 0)
  | d :: rest =>
      if matchesQuery d q then
        if multi then
          let (r, c) := removeRev q multi rest
          (r, c + 1)
        else (rest, 1)
      else
        let (r, c) := removeRev q multi rest
        (d :: r, c)

/-- Embeds `Collection.remove(query, options)` on the in-memory document array:
returns the new array and `removedCount`. -/
def remove (docs : List JVal) (q : JVal) (multi : Bool) : List JVal × Nat :=
  let (r, c) := removeRev q multi docs.reverse
  (r.reverse, c)

end Collection

/-- Embeds the `getCollection(name)` argument validation: a non-string or blank name is
raised as an error (`typeof name !== 'string' || !name.trim()`); otherwise
the trimmed, lower-cased name keys the collection. -/
def getCollectionName (name : JVal) : Except String String :=
  match name with
  | .jstr s => if s.trim = "" then .error "DB: Collection name must be a non-empty string." else .ok s.trim.toLower
  | _ => .error "DB: Collection name must be a non-empty string."

/-! ### Basic lemmas about field-list operations -/

theorem jsStrictEq_eq {a b : JVal} (h : jsStrictEq a b = true) : a = b := by
  cases a <;> cases b <;> simp_all [jsStrictEq]

theorem lookup_setKey_self (fs : List (String × JVal)) (k : String) (v : JVal) :
    lookupField (setKey fs k v) k = some v := by
  induction fs with
  | nil => simp [setKey, lookupField]
  | cons p rest ih =>
      obtain ⟨k2, w⟩ := p
      rw [setKey]
      split
      · simp [lookupField]
      · rw [lookupField]
        simp_all

theorem setKey_setKey (fs : List (String × JVal)) (k : String) (a b : JVal) :
    setKey (setKey fs k a) k b = setKey fs k b := by
  induction fs with
  | nil => simp [setKey]
  | cons p rest ih =>
      obtain ⟨k2, w⟩ := p
      by_cases hk : k2 = k
      · subst hk; simp [setKey]
      · simp [setKey, hk, ih]

/-! ### The round-trip property of the store (claim C6) -/

theorem getPath_setPath (keys : List String) (h : keys ≠ []) :
    ∀ (fields : List (String × JVal)) (v : JVal),
      store.getPath (store.setPath (.jobj fields) keys v) keys = some v := by
  induction keys with
  | nil => exact absurd rfl h
  | cons k ks ih =>
      intro fields v
      match ks with
      | [] =>
          rw [store.setPath, store.getPath]
          simp [lookup_setKey_self, store.getPath]
      | k2 :: ks2 =>
          rw [store.setPath, store.getPath]
          simp only [lookup_setKey_self]
          cases hl : lookupField fields k with
          | none => simp only [hl]; exact ih (by simp) [] v
          | some w =>
              cases w <;> simp only [hl] <;> first
                | exact ih (by simp) [] v
                | (rename_i f; exact ih (by simp) f v)

/-- C6 (corrected), counterexample.  Round-trip fails at the dot-path
`'__proto__'` with a primitive value: `set('__proto__', 1)` runs the success
branch but the assignment invokes the inherited
`Object.prototype.__proto__` accessor, which silently ignores a non-object
value — no own key is written and the store is unchanged; `get('__proto__')`
then finds the key via the prototype chain and returns the
`Object.prototype` host object, which is not deep-equal to `1`. -/
theorem C6_counterexample :
    store.setP [] [] "__proto__" (.jnum 1) = some []
      ∧ store.getP [] [] "__proto__" (.jnum 0) = .protoObject
      ∧ PVal.protoObject ≠ .json (.jnum 1) :=
  ⟨rfl, rfl, by simp⟩

theorem setCur_getCur_roundtrip (keys : List String) :
    keys ≠ [] → (∀ seg ∈ keys, seg ≠ "__proto__") →
    ∀ (fields : List (String × JVal)) (v : JVal),
      ∃ f2 : List (String × JVal),
        store.setCur fields keys v [] = some f2
          ∧ store.getCur (.json (.jobj f2)) keys [] = some (.json v) := by
  induction keys with
  | nil => intro hne _; exact absurd rfl hne
  | cons k ks ih =>
      intro _ hp fields v
      have hk : ¬ k = "__proto__" := hp k (by simp)
      match ks with
      | [] =>
          refine ⟨setKey fields k v, ?_, ?_⟩
          · show store.assignFinal fields k v = some (setKey fields k v)
            rw [store.assignFinal]
            cases hl : lookupField fields k with
            | some w => rfl
            | none => simp only [if_neg hk]
          · rw [store.getCur]
            rw [readOwnOrInherited]
            simp [lookup_setKey_self, store.getCur]
      | k2 :: ks2 =>
          have hcont : ∀ f0 : List (String × JVal),
              (∃ c2, store.setCur f0 (k2 :: ks2) v [] = some c2
                ∧ store.getCur (.json (.jobj c2)) (k2 :: ks2) [] = some (.json v)) →
              ∃ f2, (store.setCur f0 (k2 :: ks2) v []).map
                  (fun c2 => setKey fields k (.jobj c2)) = some f2
                ∧ store.getCur (.json (.jobj f2)) (k :: k2 :: ks2) [] = some (.json v) := by
            intro f0 hrec
            obtain ⟨c2, hset, hget⟩ := hrec
            refine ⟨setKey fields k (.jobj c2), by simp [hset], ?_⟩
            rw [store.getCur]
            rw [readOwnOrInherited]
            simp only [lookup_setKey_self]
            exact hget
          have hrec := ih (by simp) (fun x hx => hp x (by simp [hx]))
          cases hl : lookupField fields k with
          | some w =>
              cases w with
              | jobj f =>
                  obtain ⟨f2, h1, h2⟩ := hcont f (hrec f v)
                  refine ⟨f2, ?_, h2⟩
                  rw [store.setCur, hl]
                  exact h1
              | jnull =>
                  obtain ⟨f2, h1, h2⟩ := hcont [] (hrec [] v)
                  exact ⟨f2, by rw [store.setCur, hl]; exact h1, h2⟩
              | jbool b =>
                  obtain ⟨f2, h1, h2⟩ := hcont [] (hrec [] v)
                  exact ⟨f2, by rw [store.setCur, hl]; exact h1, h2⟩
              | jnum n =>
                  obtain ⟨f2, h1, h2⟩ := hcont [] (hrec [] v)
                  exact ⟨f2, by rw [store.setCur, hl]; exact h1, h2⟩
              | jstr s =>
                  obtain ⟨f2, h1, h2⟩ := hcont [] (hrec [] v)
                  exact ⟨f2, by rw [store.setCur, hl]; exact h1, h2⟩
          | none =>
              obtain ⟨f2, h1, h2⟩ := hcont [] (hrec [] v)
              refine ⟨f2, ?_, h2⟩
              rw [store.setCur, hl]
              simp only [if_neg hk, lookupField]
              exact h1

/-- C6 (corrected), amended claim.  In a store whose `Object.prototype` is
pristine (the process-start state), for every dot-path `p` none of whose
segments is `__proto__` and every value `v`, `set(p, v)` completes in the
model and `get(p)` returns a value deep-equal to `v`.  Paths with a
`__proto__` segment are not covered: an unshadowed final `__proto__` segment
hands a primitive `v` to the inherited accessor, which discards it (the
counterexample), and an intermediate `__proto__` segment descends into the
shared `Object.prototype`. -/
theorem C6_roundtrip_no_proto_segment
    (fields : List (String × JVal)) (p : String) (v d : JVal)
    (h : ∀ seg ∈ splitPath p, seg ≠ "__proto__") :
    ∃ fields2 : List (String × JVal),
      store.setP fields [] p v = some fields2
        ∧ store.getP fields2 [] p d = .json v := by
  obtain ⟨f2, h1, h2⟩ :=
    setCur_getCur_roundtrip (splitPath p) (splitPath_ne_nil p) h fields v
  refine ⟨f2, h1, ?_⟩
  rw [store.getP, h2]
  rfl

/-- Closed witness for `C6_roundtrip_no_proto_segment` at path `'a.b'` on a
one-key store. -/
theorem C6_witness :
    ∃ fields2 : List (String × JVal),
      store.setP [("z", .jnum 9)] [] "a.b" (.jnum 1) = some fields2
        ∧ store.getP fields2 [] "a.b" .jnull = .json (.jnum 1) :=
  C6_roundtrip_no_proto_segment [("z", .jnum 9)] "a.b" (.jnum 1) .jnull (by decide)

/-! ### Claim C1: `set` through a scalar intermediate -/

/-- C1 (corrected), counterexample.  After `set('a.b', 1)`, the call
`set('a.b.c', 2)` does not soft-fail: it mutates the store, `get('a.b.c')`
returns `2` (not the default), and `get('a.b')` returns the object
`{ c: 2 }` (not `1`). -/
theorem C1_counterexample :
    store.set (store.set (.jobj []) "a.b" (.jnum 1)) "a.b.c" (.jnum 2)
        ≠ store.set (.jobj []) "a.b" (.jnum 1)
      ∧ store.get (store.set (store.set (.jobj []) "a.b" (.jnum 1)) "a.b.c" (.jnum 2))
          "a.b.c" (.jstr "DEFAULT") = .jnum 2
      ∧ store.get (store.set (store.set (.jobj []) "a.b" (.jnum 1)) "a.b.c" (.jnum 2))
          "a.b" (.jstr "DEFAULT") = .jobj [("c", .jnum 2)] := by
  refine ⟨?_, rfl, rfl⟩
  show JVal.jobj [("a", .jobj [("b", .jobj [("c", .jnum 2)])])]
      ≠ .jobj [("a", .jobj [("b", .jnum 1)])]
  simp

/-- C1 (corrected), amended claim.  When an intermediate segment holds a
non-mapping value, `set` does not fail: it overwrites that value with a fresh
empty mapping and completes the write.  Concretely, for any root mapping,
after `set('a.b', v1)` with `v1` a non-object and then `set('a.b.c', v2)`,
`get('a.b.c')` returns `v2` and `get('a.b')` returns the mapping
`{ c: v2 }`. -/
theorem C1_set_overwrites_scalar_intermediate
    (fields : List (String × JVal)) (v1 v2 d : JVal) (h : v1.isObj = false) :
    store.get (store.set (store.set (.jobj fields) "a.b" v1) "a.b.c" v2) "a.b.c" d = v2
      ∧ store.get (store.set (store.set (.jobj fields) "a.b" v1) "a.b.c" v2) "a.b" d
          = .jobj [("c", v2)] := by
  have hsplit2 : splitPath "a.b" = ["a", "b"] := rfl
  have hsplit3 : splitPath "a.b.c" = ["a", "b", "c"] := rfl
  simp only [store.get, store.set, hsplit2, hsplit3]
  rw [store.setPath]
  cases hx : lookupField fields "a" with
  | none =>
      simp only [hx]
      rw [store.setPath, store.setPath]
      simp only [lookup_setKey_self]
      cases v1 <;> simp_all [store.setPath, store.getPath, lookup_setKey_self,
        setKey_setKey, setKey, lookupField, JVal.isObj, Option.getD]
  | some w =>
      cases w <;> simp only [hx] <;>
        · rw [store.setPath, store.setPath]
          simp only [lookup_setKey_self]
          cases v1 <;> simp_all [store.setPath, store.getPath, lookup_setKey_self,
            setKey_setKey, setKey, lookupField, JVal.isObj, Option.getD]

/-- Closed witness for `C1_set_overwrites_scalar_intermediate` at
`fields = []`, `v1 = 1`, `v2 = 2`. -/
theorem C1_witness :
    store.get (store.set (store.set (.jobj []) "a.b" (.jnum 1)) "a.b.c" (.jnum 2))
        "a.b.c" .jnull = .jnum 2
      ∧ store.get (store.set (store.set (.jobj []) "a.b" (.jnum 1)) "a.b.c" (.jnum 2))
          "a.b" .jnull = .jobj [("c", .jnum 2)] :=
  C1_set_overwrites_scalar_intermediate [] (.jnum 1) (.jnum 2) .jnull rfl

/-! ### Claim C3: bracket segments in key paths -/

/-- C3 (corrected), counterexample.  In a root where key `x` holds a mapping
with key `0` bound to `"v"`, `get('x[0]')` does not resolve `x` and then
index `0`: it returns the caller default, while the dot form `get('x.0')`
returns `"v"`.  Likewise `set('x[0]', w)` writes the single literal key
`"x[0]"` at the root rather than writing through two segments, so a
subsequent `get('x.0')` still misses. -/
theorem C3_counterexample :
    store.get (.jobj [("x", .jobj [("0", .jstr "v")])]) "x[0]" (.jstr "DEFAULT")
        = .jstr "DEFAULT"
      ∧ store.get (.jobj [("x", .jobj [("0", .jstr "v")])]) "x.0" (.jstr "DEFAULT")
        = .jstr "v"
      ∧ store.set (.jobj []) "x[0]" (.jstr "w") = .jobj [("x[0]", .jstr "w")]
      ∧ store.get (store.set (.jobj []) "x[0]" (.jstr "w")) "x.0" (.jstr "DEFAULT")
        = .jstr "DEFAULT" :=
  ⟨rfl, rfl, rfl, rfl⟩

/-- C3 (corrected), amended claim.  Key paths use only `.` as separator and
there is no bracket syntax: a numeric index is addressed as a dot segment
(`'x.0'` resolves key `x` and then key `0`), while a bracketed path such as
`'x[0]'` is one literal mapping key, read and written as such. -/
theorem C3_bracket_is_literal_key
    (fields : List (String × JVal)) (w v d : JVal)
    (h : lookupField fields "x" = some (.jobj [("0", w)])) :
    store.get (.jobj fields) "x.0" d = w
      ∧ store.get (.jobj fields) "x[0]" d = (lookupField fields "x[0]").getD d
      ∧ store.set (.jobj fields) "x[0]" v = .jobj (setKey fields "x[0]" v) := by
  refine ⟨?_, ?_, rfl⟩
  · have hsplit : splitPath "x.0" = ["x", "0"] := rfl
    simp only [store.get, hsplit]
    rw [store.getPath]
    simp [h, store.getPath, lookupField]
  · have hsplit : splitPath "x[0]" = ["x[0]"] := rfl
    simp only [store.get, hsplit]
    rw [store.getPath]
    cases hl : lookupField fields "x[0]" <;> simp [hl, store.getPath]

/-- Closed witness for `C3_bracket_is_literal_key`. -/
theorem C3_witness :
    store.get (.jobj [("x", .jobj [("0", .jstr "v")])]) "x.0" .jnull = .jstr "v"
      ∧ store.get (.jobj [("x", .jobj [("0", .jstr "v")])]) "x[0]" .jnull
          = (lookupField [("x", .jobj [("0", .jstr "v")])] "x[0]").getD .jnull
      ∧ store.set (.jobj [("x", .jobj [("0", .jstr "v")])]) "x[0]" (.jnum 7)
          = .jobj (setKey [("x", .jobj [("0", .jstr "v")])] "x[0]" (.jnum 7)) :=
  C3_bracket_is_literal_key [("x", .jobj [("0", .jstr "v")])] (.jstr "v") (.jnum 7)
    .jnull rfl

/-! ### Claim C9: delete idempotence -/

theorem wfB_cons {k : String} {v : JVal} {rest : List (String × JVal)} :
    JVal.wfB (.jobj ((k, v) :: rest)) = true ↔
      rest.any (fun p => p.1 == k) = false ∧ JVal.wfB v = true
        ∧ JVal.wfB (.jobj rest) = true := by
  rw [JVal.wfB]
  simp [Bool.and_eq_true, Bool.not_eq_true', and_assoc]

theorem lookup_of_any_false {fs : List (String × JVal)} {k : String}
    (h : fs.any (fun p => p.1 == k) = false) : lookupField fs k = none := by
  induction fs with
  | nil => rfl
  | cons p rest ih =>
      obtain ⟨k2, w⟩ := p
      simp only [List.any_cons, Bool.or_eq_false_iff] at h
      rw [lookupField]
      have : ¬ k2 = k := by simpa using h.1
      simp [this, ih h.2]

theorem lookup_child_wf {fs : List (String × JVal)} {k : String} {c : JVal}
    (hwf : JVal.wfB (.jobj fs) = true) (hl : lookupField fs k = some c) :
    c.wfB = true := by
  induction fs with
  | nil => simp [lookupField] at hl
  | cons p rest ih =>
      obtain ⟨k2, w⟩ := p
      rw [wfB_cons] at hwf
      rw [lookupField] at hl
      by_cases hk : k2 = k
      · simp [hk] at hl; subst hl; exact hwf.2.1
      · simp [hk] at hl; exact ih hwf.2.2 hl

theorem lookup_eraseField_self {fs : List (String × JVal)} {k : String}
    (hwf : JVal.wfB (.jobj fs) = true) :
    lookupField (eraseField fs k) k = none := by
  induction fs with
  | nil => rfl
  | cons p rest ih =>
      obtain ⟨k2, w⟩ := p
      rw [wfB_cons] at hwf
      rw [eraseField]
      by_cases hk : k2 = k
      · subst hk; simp only [if_pos rfl]
        exact lookup_of_any_false hwf.1
      · rw [if_neg hk, lookupField, if_neg hk]
        exact ih hwf.2.2

theorem eraseField_of_lookup_none {fs : List (String × JVal)} {k : String}
    (h : lookupField fs k = none) : eraseField fs k = fs := by
  induction fs with
  | nil => rfl
  | cons p rest ih =>
      obtain ⟨k2, w⟩ := p
      rw [lookupField] at h
      by_cases hk : k2 = k
      · simp [hk] at h
      · rw [eraseField, if_neg hk]
        simp [hk] at h
        rw [ih h]

theorem deletePath_idem (keys : List String) :
    ∀ root : JVal, root.wfB = true →
      store.deletePath (store.deletePath root keys) keys = store.deletePath root keys := by
  induction keys with
  | nil => intro root _; rfl
  | cons k ks ih =>
      intro root hwf
      cases root with
      | jobj fs =>
          match ks with
          | [] =>
              rw [store.deletePath, store.deletePath]
              rw [eraseField_of_lookup_none (lookup_eraseField_self hwf)]
          | k2 :: ks2 =>
              rw [store.deletePath]
              cases hl : lookupField fs k with
              | none => simp only [hl]; rw [store.deletePath, hl]
              | some child =>
                  simp only [hl]
                  rw [store.deletePath]
                  simp only [lookup_setKey_self]
                  rw [ih child (lookup_child_wf hwf hl), setKey_setKey]
      | jnull => rfl
      | jbool b => rfl
      | jnum n => rfl
      | jstr s => rfl

/-- C9 (confirmed).  Delete idempotence: for every dot-path `p` and every
store state (a JavaScript value, hence with distinct keys at every level),
`delete(p)` twice produces exactly the state `delete(p)` once produces; the
second call hits the logged-no-op branch and raises nothing (the embedded
operation is total). -/
theorem C9_delete_idempotent (root : JVal) (p : String) (h : root.wfB = true) :
    store.delete (store.delete root p) p = store.delete root p :=
  deletePath_idem (splitPath p) root h

/-- Closed witness for `C9_delete_idempotent` on `{ a: { b: 1 }, c: 2 }` and
path `'a.b'`. -/
theorem C9_witness :
    store.delete (store.delete (.jobj [("a", .jobj [("b", .jnum 1)]), ("c", .jnum 2)]) "a.b") "a.b"
      = store.delete (.jobj [("a", .jobj [("b", .jnum 1)]), ("c", .jnum 2)]) "a.b" :=
  C9_delete_idempotent (.jobj [("a", .jobj [("b", .jnum 1)]), ("c", .jnum 2)]) "a.b"
    (by simp [JVal.wfB])

/-! ### Claim C7: insert skips bad documents without raising -/

theorem insertLoop_spec (gen : Nat → String) :
    ∀ (vs : List JVal) (k : Nat),
      (Collection.insertLoop gen vs k).1 = (Collection.insertLoop gen vs k).2
        ∧ (Collection.insertLoop gen vs k).2.length
            = (vs.filter (fun v => v.isObj)).length := by
  intro vs
  induction vs with
  | nil => intro k; simp [Collection.insertLoop]
  | cons d rest ih =>
      intro k
      cases d with
      | jobj fs =>
          rw [Collection.insertLoop]
          cases hid : (lookupField fs "_id").isNone <;>
            simp_all [List.filter_cons, JVal.isObj]
      | jnull => simpa [Collection.insertLoop, List.filter_cons, JVal.isObj] using ih k
      | jbool b => simpa [Collection.insertLoop, List.filter_cons, JVal.isObj] using ih k
      | jnum n => simpa [Collection.insertLoop, List.filter_cons, JVal.isObj] using ih k
      | jstr s => simpa [Collection.insertLoop, List.filter_cons, JVal.isObj] using ih k

/-- C7 (confirmed).  `insert` never raises for bad documents: a single
non-object argument is skipped with a warning, yields result `null`, and
leaves the document array (hence `count()`) unchanged; an array argument
yields exactly the accepted (object) entries, in order, possibly fewer than
supplied; a single accepted document yields a single document result. -/
theorem C7_insert_never_fatal :
    (∀ (docs : List JVal) (v : JVal) (gen : Nat → String), v.isObj = false →
        Collection.insert docs (.one v) gen = (docs, .one none))
      ∧ (∀ (docs vs : List JVal) (gen : Nat → String),
            ∃ acc : List JVal,
              Collection.insert docs (.many vs) gen = (docs ++ acc, .many acc)
                ∧ acc.length = (vs.filter (fun v => v.isObj)).length)
      ∧ (∀ (docs : List JVal) (fs : List (String × JVal)) (gen : Nat → String),
            ∃ nd : JVal, Collection.insert docs (.one (.jobj fs)) gen
              = (docs ++ [nd], .one (some nd))) := by
  refine ⟨?_, ?_, ?_⟩
  · intro docs v gen hv
    cases v <;> simp_all [Collection.insert, Collection.insertLoop, JVal.isObj]
  · intro docs vs gen
    obtain ⟨h1, h2⟩ := insertLoop_spec gen vs 0
    refine ⟨(Collection.insertLoop gen vs 0).2, ?_, h2⟩
    rw [Collection.insert]
    rw [show (Collection.insertLoop gen vs 0)
          = ((Collection.insertLoop gen vs 0).1, (Collection.insertLoop gen vs 0).2) from rfl]
    rw [h1]
  · intro docs fs gen
    cases hid : (lookupField fs "_id").isNone with
    | true =>
        refine ⟨.jobj (setKey fs "_id" (.jstr (gen 0))), ?_⟩
        rw [Collection.insert, Collection.insertLoop, hid]
        simp [Collection.insertLoop]
    | false =>
        refine ⟨.jobj fs, ?_⟩
        rw [Collection.insert, Collection.insertLoop, hid]
        simp [Collection.insertLoop]

/-- Closed witness for `C7_insert_never_fatal`: a number is skipped with a
`null` result and no state change; a mixed array keeps only its two objects;
a single object goes in and comes out. -/
theorem C7_witness :
    Collection.insert [.jobj [("x", .jnum 0)]] (.one (.jnum 5)) (fun _ => "gid")
        = ([.jobj [("x", .jnum 0)]], .one none)
      ∧ (∃ acc : List JVal,
            Collection.insert [] (.many [.jobj [], .jnull, .jnum 3, .jobj [("a", .jnum 1)]])
                (fun _ => "gid") = ([] ++ acc, .many acc)
              ∧ acc.length
                  = ([JVal.jobj [], .jnull, .jnum 3, .jobj [("a", .jnum 1)]].filter
                      (fun v => v.isObj)).length)
      ∧ (∃ nd : JVal,
            Collection.insert [] (.one (.jobj [("name", .jstr "Bob")])) (fun _ => "gid")
              = ([] ++ [nd], .one (some nd))) :=
  ⟨C7_insert_never_fatal.1 [.jobj [("x", .jnum 0)]] (.jnum 5) (fun _ => "gid") rfl,
   C7_insert_never_fatal.2.1 [] [.jobj [], .jnull, .jnum 3, .jobj [("a", .jnum 1)]]
     (fun _ => "gid"),
   C7_insert_never_fatal.2.2 [] [("name", .jstr "Bob")] (fun _ => "gid")⟩

/-! ### Claim C10: non-object queries match everything -/

theorem matchesQuery_of_nonobj {q : JVal} (hq : q.isObj = false) (d : JVal) :
    matchesQuery d q = true := by
  cases q <;> simp_all [matchesQuery, JVal.truthy, JVal.typeofObject, JVal.isObj]

theorem matchesQuery_emptyobj (d : JVal) : matchesQuery d (.jobj []) = true := rfl

theorem removeRev_congr {q q2 : JVal} {m : Bool}
    (h : ∀ d, matchesQuery d q = matchesQuery d q2) :
    ∀ l : List JVal, Collection.removeRev q m l = Collection.removeRev q2 m l := by
  intro l
  induction l with
  | nil => rfl
  | cons d rest ih => rw [Collection.removeRev, Collection.removeRev, h, ih]

theorem updateRev_congr {q q2 : JVal} {upd : Collection.UpdateArg} {m : Bool}
    (h : ∀ d, matchesQuery d q = matchesQuery d q2) :
    ∀ l : List JVal, Collection.updateRev q upd m l = Collection.updateRev q2 upd m l := by
  intro l
  induction l with
  | nil => rfl
  | cons d rest ih => rw [Collection.updateRev, Collection.updateRev, h, ih]

theorem updateRev_pos {q : JVal} {upd : Collection.UpdateArg} {m : Bool}
    {d : JVal} {rest r resD : List JVal} {c : Nat}
    (hd : matchesQuery d q = true)
    (hok : Collection.updateRev q upd m (d :: rest) = .ok (r, c, resD)) :
    0 < c := by
  rw [Collection.updateRev, hd] at hok
  simp only [if_pos rfl] at hok
  cases hu : Collection.updateOneDoc d upd with
  | error e => rw [hu] at hok; exact absurd hok (by simp)
  | ok nd =>
      rw [hu] at hok
      cases m with
      | false => simp at hok; omega
      | true =>
          simp only [if_pos rfl] at hok
          cases hrec : Collection.updateRev q upd true rest with
          | error e => rw [hrec] at hok; exact absurd hok (by simp)
          | ok t =>
              obtain ⟨r2, c2, s2⟩ := t
              rw [hrec] at hok
              simp at hok
              omega

/-- C10 (confirmed).  A non-object query value (number, string, boolean or
null) behaves as the empty query: it matches every document, so `find`
returns all documents, `findOne` the first, `count` the full length, and
`remove`/`update` act exactly as with an empty query (for `update` whenever
the upsert branch is not reached from an empty collection, where the
synthesized document is built from the query's spread). -/
theorem C10_nonobject_query_matches_all (q : JVal) (hq : q.isObj = false) :
    (∀ d, matchesQuery d q = true)
      ∧ (∀ docs : List JVal, Collection.find docs q = docs)
      ∧ (∀ docs : List JVal, Collection.findOne docs q = docs.head?)
      ∧ (∀ docs : List JVal, Collection.count docs q = docs.length)
      ∧ (∀ (docs : List JVal) (m : Bool),
            Collection.remove docs q m = Collection.remove docs (.jobj []) m)
      ∧ (∀ (docs : List JVal) (upd : Collection.UpdateArg) (m u : Bool)
            (gen : Nat → String), u = false ∨ docs ≠ [] →
            Collection.update docs q upd m u gen
              = Collection.update docs (.jobj []) upd m u gen) := by
  have hall : ∀ d, matchesQuery d q = true := matchesQuery_of_nonobj hq
  have hcong : ∀ d, matchesQuery d q = matchesQuery d (.jobj []) := by
    intro d; rw [hall, matchesQuery_emptyobj]
  refine ⟨hall, ?_, ?_, ?_, ?_, ?_⟩
  · intro docs
    rw [Collection.find, List.filter_eq_self.mpr (fun a _ => hall a)]
  · intro docs
    cases docs with
    | nil => rfl
    | cons d rest => simp [Collection.findOne, List.find?_cons, hall]
  · intro docs
    rw [Collection.count]
    cases q <;> simp_all [JVal.truthy, JVal.typeofObject, JVal.isObj]
  · intro docs m
    rw [Collection.remove, Collection.remove, removeRev_congr hcong]
  · intro docs upd m u gen h
    rw [Collection.update, Collection.update, updateRev_congr hcong]
    cases hrev : Collection.updateRev (.jobj []) upd m docs.reverse with
    | error e => rfl
    | ok t =>
        obtain ⟨r, c, resD⟩ := t
        have hc : (decide (c = 0) && u) = false := by
          cases h with
          | inl hu => subst hu; simp
          | inr hne =>
              have hpos : 0 < c := by
                cases hd : docs.reverse with
                | nil => exact absurd (by simpa using hd) hne
                | cons d2 rest2 =>
                    rw [hd] at hrev
                    exact updateRev_pos (matchesQuery_emptyobj d2) hrev
              have hcz : ¬ c = 0 := by omega
              simp [hcz]
        dsimp only
        rw [hc]
        simp

/-- Closed witness for `C10_nonobject_query_matches_all` at query `5` with a
two-document collection. -/
theorem C10_witness :
    (matchesQuery (.jobj [("a", .jnum 1)]) (.jnum 5) = true)
      ∧ Collection.find [.jobj [("a", .jnum 1)], .jobj []] (.jnum 5)
          = [.jobj [("a", .jnum 1)], .jobj []]
      ∧ Collection.findOne [.jobj [("a", .jnum 1)], .jobj []] (.jnum 5)
          = some (.jobj [("a", .jnum 1)])
      ∧ Collection.count [.jobj [("a", .jnum 1)], .jobj []] (.jnum 5) = 2
      ∧ Collection.remove [.jobj [("a", .jnum 1)], .jobj []] (.jnum 5) false
          = Collection.remove [.jobj [("a", .jnum 1)], .jobj []] (.jobj []) false
      ∧ Collection.update [.jobj [("a", .jnum 1)], .jobj []] (.jnum 5)
            (.data [("b", .jnum 2)]) false true (fun _ => "gid")
          = Collection.update [.jobj [("a", .jnum 1)], .jobj []] (.jobj [])
            (.data [("b", .jnum 2)]) false true (fun _ => "gid") := by
  obtain ⟨h1, h2, h3, h4, h5, h6⟩ := C10_nonobject_query_matches_all (.jnum 5) rfl
  exact ⟨h1 _, h2 _, by rw [h3]; rfl, h4 _, h5 _ false,
    h6 [.jobj [("a", .jnum 1)], .jobj []] (.data [("b", .jnum 2)]) false true
      (fun _ => "gid") (Or.inr (by simp))⟩

/-! ### Claim C2: which match non-multi update/remove affect -/

theorem removeRev_skips_unmatched {q : JVal} (P : List JVal)
    (hP : ∀ b ∈ P, matchesQuery b q = false) {d : JVal}
    (hd : matchesQuery d q = true) (R : List JVal) :
    Collection.removeRev q false (P ++ d :: R) = (P ++ R, 1) := by
  induction P with
  | nil => simp [Collection.removeRev, hd]
  | cons b P ih =>
      rw [List.cons_append, Collection.removeRev, hP b (by simp)]
      rw [ih (fun x hx => hP x (by simp [hx]))]
      simp

theorem updateRev_skips_unmatched {q : JVal} {upd : Collection.UpdateArg}
    (P : List JVal) (hP : ∀ b ∈ P, matchesQuery b q = false) {d nd : JVal}
    (hd : matchesQuery d q = true) (hnd : Collection.updateOneDoc d upd = .ok nd)
    (R : List JVal) :
    Collection.updateRev q upd false (P ++ d :: R) = .ok (P ++ nd :: R, 1, [nd]) := by
  induction P with
  | nil => simp [Collection.updateRev, hd, hnd]
  | cons b P ih =>
      rw [List.cons_append, Collection.updateRev, hP b (by simp)]
      rw [ih (fun x hx => hP x (by simp [hx]))]
      simp

/-- C2 (corrected), counterexample.  With two matching documents, `remove`
without `multi` keeps the index-0 match and removes the index-1 match (the
claim predicts the opposite), and `update` without `multi` rewrites the
index-1 match while leaving the index-0 match untouched. -/
theorem C2_counterexample :
    Collection.remove
        [.jobj [("_id", .jstr "1"), ("a", .jnum 1)],
         .jobj [("_id", .jstr "2"), ("a", .jnum 1)]]
        (.jobj [("a", .jnum 1)]) false
      = ([.jobj [("_id", .jstr "1"), ("a", .jnum 1)]], 1)
      ∧ ¬ (Collection.remove
            [.jobj [("_id", .jstr "1"), ("a", .jnum 1)],
             .jobj [("_id", .jstr "2"), ("a", .jnum 1)]]
            (.jobj [("a", .jnum 1)]) false
          = ([.jobj [("_id", .jstr "2"), ("a", .jnum 1)]], 1))
      ∧ Collection.update
          [.jobj [("_id", .jstr "1"), ("a", .jnum 1)],
           .jobj [("_id", .jstr "2"), ("a", .jnum 1)]]
          (.jobj [("a", .jnum 1)]) (.data [("b", .jnum 7)]) false false (fun _ => "gid")
        = .ok ([.jobj [("_id", .jstr "1"), ("a", .jnum 1)],
                .jobj [("_id", .jstr "2"), ("a", .jnum 1), ("b", .jnum 7)]], 1,
               [.jobj [("_id", .jstr "2"), ("a", .jnum 1), ("b", .jnum 7)]]) := by
  refine ⟨rfl, ?_, rfl⟩
  intro h
  rw [show Collection.remove
        [JVal.jobj [("_id", JVal.jstr "1"), ("a", JVal.jnum 1)],
         JVal.jobj [("_id", JVal.jstr "2"), ("a", JVal.jnum 1)]]
        (JVal.jobj [("a", JVal.jnum 1)]) false
      = ([JVal.jobj [("_id", JVal.jstr "1"), ("a", JVal.jnum 1)]], 1) from rfl] at h
  simp at h

/-- C2 (corrected), amended claim.  When at least one document matches the
query, `update`/`remove` without `options.multi` affect exactly one document:
the match at the highest array index (the latest match in insertion order),
because the implementation scans from the end and breaks on its first hit.
Stated for any decomposition `A ++ [d] ++ B` where `d` matches and nothing
after it does. -/
theorem C2_nonmulti_affects_highest_index_match
    (A B : List JVal) (d q : JVal) (upd : Collection.UpdateArg) (upx : Bool)
    (gen : Nat → String)
    (hd : matchesQuery d q = true) (hB : ∀ b ∈ B, matchesQuery b q = false) :
    Collection.remove (A ++ d :: B) q false = (A ++ B, 1)
      ∧ (∀ nd : JVal, Collection.updateOneDoc d upd = .ok nd →
          Collection.update (A ++ d :: B) q upd false upx gen
            = .ok (A ++ nd :: B, 1, [nd])) := by
  have hrevlist : (A ++ d :: B).reverse = B.reverse ++ d :: A.reverse := by
    simp
  have hPmem : ∀ b ∈ B.reverse, matchesQuery b q = false := by
    intro b hb; exact hB b (List.mem_reverse.mp hb)
  constructor
  · rw [Collection.remove, hrevlist]
    rw [removeRev_skips_unmatched B.reverse hPmem hd A.reverse]
    simp
  · intro nd hnd
    rw [Collection.update, hrevlist]
    rw [updateRev_skips_unmatched B.reverse hPmem hd hnd A.reverse]
    simp

/-- Closed witness for `C2_nonmulti_affects_highest_index_match` on the
two-match collection of the counterexample. -/
theorem C2_witness :
    Collection.remove
        ([.jobj [("_id", .jstr "1"), ("a", .jnum 1)]]
          ++ .jobj [("_id", .jstr "2"), ("a", .jnum 1)] :: [])
        (.jobj [("a", .jnum 1)]) false
      = ([.jobj [("_id", .jstr "1"), ("a", .jnum 1)]] ++ [], 1)
      ∧ Collection.update
          ([.jobj [("_id", .jstr "1"), ("a", .jnum 1)]]
            ++ .jobj [("_id", .jstr "2"), ("a", .jnum 1)] :: [])
          (.jobj [("a", .jnum 1)]) (.data [("b", .jnum 7)]) false false (fun _ => "gid")
        = .ok ([.jobj [("_id", .jstr "1"), ("a", .jnum 1)]]
              ++ .jobj [("_id", .jstr "2"), ("a", .jnum 1), ("b", .jnum 7)] :: [], 1,
              [.jobj [("_id", .jstr "2"), ("a", .jnum 1), ("b", .jnum 7)]]) := by
  obtain ⟨h1, h2⟩ := C2_nonmulti_affects_highest_index_match
    [.jobj [("_id", .jstr "1"), ("a", .jnum 1)]] []
    (.jobj [("_id", .jstr "2"), ("a", .jnum 1)]) (.jobj [("a", .jnum 1)])
    (.data [("b", .jnum 7)]) false (fun _ => "gid") rfl (by simp)
  exact ⟨h1, h2 _ rfl⟩

/-! ### Claim C4: upsert on a non-matching query -/

theorem updateOneDoc_data_ok (d : JVal) (u : List (String × JVal)) :
    ∃ nd : JVal, Collection.updateOneDoc d (.data u) = .ok nd := by
  rw [Collection.updateOneDoc]
  cases hid : propGet d "_id" with
  | none => exact ⟨_, rfl⟩
  | some idv =>
      cases ht : idv.truthy
      · simp [ht]
      · simp only [ht, if_pos rfl]
        cases hl : lookupField (mergeFields (spreadFields d) u) "_id" with
        | none => simp [hl]
        | some mid =>
            cases he : jsStrictEq mid idv <;> simp [hl, he]

theorem updateRev_data (q : JVal) (u : List (String × JVal)) (m : Bool) :
    ∀ l : List JVal, ∃ (r s : List JVal) (c : Nat),
      Collection.updateRev q (.data u) m l = .ok (r, c, s)
        ∧ r.length = l.length
        ∧ (c = 0 ↔ ∀ d ∈ l, matchesQuery d q = false)
        ∧ (c = 0 → r = l ∧ s = []) := by
  intro l
  induction l with
  | nil => exact ⟨[], [], 0, rfl, rfl, by simp, by simp⟩
  | cons d rest ih =>
      obtain ⟨r, s, c, hok, hlen, hzero, hsame⟩ := ih
      cases hm : matchesQuery d q with
      | false =>
          refine ⟨d :: r, s, c, ?_, by simp [hlen], ?_, ?_⟩
          · rw [Collection.updateRev, hm]
            simp [hok]
          · rw [hzero]
            constructor
            · intro hall x hx
              rcases List.mem_cons.mp hx with h1 | h2
              · subst h1; exact hm
              · exact hall x h2
            · intro hall x hx; exact hall x (by simp [hx])
          · intro hc
            obtain ⟨h1, h2⟩ := hsame hc
            exact ⟨by rw [h1], h2⟩
      | true =>
          obtain ⟨nd, hnd⟩ := updateOneDoc_data_ok d u
          cases m with
          | false =>
              refine ⟨nd :: rest, [nd], 1, ?_, by simp, ?_, by simp⟩
              · rw [Collection.updateRev, hm]
                simp [hnd]
              · simp only [Nat.one_ne_zero, false_iff]
                intro hall
                exact absurd hm (by simp [hall d (by simp)])
          | true =>
              refine ⟨nd :: r, nd :: s, c + 1, ?_, by simp [hlen], ?_, by simp⟩
              · rw [Collection.updateRev, hm]
                simp [hnd, hok]
              · simp only [Nat.succ_ne_zero, false_iff]
                intro hall
                exact absurd hm (by simp [hall d (by simp)])

/-- C4 (corrected), counterexample.  On an empty collection, the upsert call
`update({a:1}, {b:2}, {upsert:true})` inserts one synthesized document; but
the very same call run a second time matches that synthesized document
(`{a:1}` is satisfied by it), updates it in place, and leaves `count()` at
`1` instead of increasing it to `2`. -/
theorem C4_counterexample :
    Collection.update [] (.jobj [("a", .jnum 1)]) (.data [("b", .jnum 2)]) false true
        (fun _ => "gid0")
      = .ok ([.jobj [("a", .jnum 1), ("b", .jnum 2), ("_id", .jstr "gid0")]], 1,
             [.jobj [("a", .jnum 1), ("b", .jnum 2), ("_id", .jstr "gid0")]])
      ∧ Collection.update [.jobj [("a", .jnum 1), ("b", .jnum 2), ("_id", .jstr "gid0")]]
          (.jobj [("a", .jnum 1)]) (.data [("b", .jnum 2)]) false true (fun _ => "gid1")
        = .ok ([.jobj [("a", .jnum 1), ("b", .jnum 2), ("_id", .jstr "gid0")]], 1,
               [.jobj [("a", .jnum 1), ("b", .jnum 2), ("_id", .jstr "gid0")]])
      ∧ Collection.count [.jobj [("a", .jnum 1), ("b", .jnum 2), ("_id", .jstr "gid0")]]
          (.jobj []) = 1 :=
  ⟨rfl, rfl, rfl⟩

/-- C4 (corrected), amended claim.  `update(query, data, {upsert:true})` on a
query matching no current document appends exactly one synthesized document
(count rises by one).  A repeated identical call inserts again only if the
synthesized document itself fails the query; whenever any document —
including the one just synthesized — matches the query, the call takes the
update path and the document count is unchanged. -/
theorem C4_upsert_inserts_once
    (q : JVal) (u : List (String × JVal)) (m upx : Bool) (gen : Nat → String) :
    (∀ docs : List JVal, (∀ dd ∈ docs, matchesQuery dd q = false) →
        ∃ nd : JVal,
          Collection.update docs q (.data u) m true gen = .ok (docs ++ [nd], 1, [nd]))
      ∧ (∀ docs : List JVal, (∃ dd ∈ docs, matchesQuery dd q = true) →
          ∃ (r s : List JVal) (c : Nat),
            Collection.update docs q (.data u) m upx gen = .ok (r, c, s)
              ∧ r.length = docs.length) := by
  constructor
  · intro docs hnone
    obtain ⟨r, s, c, hok, hlen, hzero, hsame⟩ := updateRev_data q u m docs.reverse
    have hc : c = 0 := hzero.mpr (fun d hd => hnone d (List.mem_reverse.mp hd))
    obtain ⟨hr, hs⟩ := hsame hc
    obtain ⟨nd, hnd⟩ : ∃ nd : JVal, Collection.upsertDoc q (.data u) gen = .ok nd := ⟨_, rfl⟩
    refine ⟨nd, ?_⟩
    rw [Collection.update, hok]
    dsimp only
    simp [hc, hr, hs, hnd]
  · intro docs hsome
    obtain ⟨r, s, c, hok, hlen, hzero, _⟩ := updateRev_data q u m docs.reverse
    have hc : ¬ c = 0 := by
      intro hc
      obtain ⟨dd, hmem, hmatch⟩ := hsome
      have := hzero.mp hc dd (List.mem_reverse.mpr hmem)
      rw [hmatch] at this
      exact absurd this (by simp)
    refine ⟨r.reverse, s, c, ?_, by simp [hlen]⟩
    rw [Collection.update, hok]
    simp [hc]

/-- Closed witness for `C4_upsert_inserts_once`: the first call of the
counterexample discharges the no-match side, the second call the
some-match side. -/
theorem C4_witness :
    (∃ nd : JVal,
        Collection.update [] (.jobj [("a", .jnum 1)]) (.data [("b", .jnum 2)]) false true
          (fun _ => "gid0") = .ok ([] ++ [nd], 1, [nd]))
      ∧ (∃ (r s : List JVal) (c : Nat),
          Collection.update [.jobj [("a", .jnum 1), ("b", .jnum 2), ("_id", .jstr "gid0")]]
              (.jobj [("a", .jnum 1)]) (.data [("b", .jnum 2)]) false true (fun _ => "gid1")
            = .ok (r, c, s)
            ∧ r.length
                = [JVal.jobj [("a", .jnum 1), ("b", .jnum 2), ("_id", .jstr "gid0")]].length) :=
  ⟨(C4_upsert_inserts_once (.jobj [("a", .jnum 1)]) [("b", .jnum 2)] false true
      (fun _ => "gid0")).1 [] (by simp),
   (C4_upsert_inserts_once (.jobj [("a", .jnum 1)]) [("b", .jnum 2)] false true
      (fun _ => "gid1")).2
     [.jobj [("a", .jnum 1), ("b", .jnum 2), ("_id", .jstr "gid0")]]
     ⟨.jobj [("a", .jnum 1), ("b", .jnum 2), ("_id", .jstr "gid0")], by simp, rfl⟩⟩

/-! ### Claim C5: `_id` preservation across update -/

/-- Update payloads for which the per-document update cannot throw and the
claims about `_id` make sense: any data object, or a transform function that
always returns an object (the shape the source documents for transforms). -/
def updOk : Collection.UpdateArg → Prop
  | .data _ => True
  | .fn f => ∀ x : JVal, ∃ gs : List (String × JVal), f x = some (.jobj gs)

theorem restore_branch_id (mfs : List (String × JVal)) (idv : JVal) :
    ∃ nd : JVal,
      ((match lookupField mfs "_id" with
        | none => Except.ok (JVal.jobj (setKey mfs "_id" idv))
        | some mid =>
            if jsStrictEq mid idv then Except.ok (JVal.jobj mfs)
            else Except.ok (JVal.jobj (setKey mfs "_id" idv))) : Except String JVal)
          = .ok nd
        ∧ propGet nd "_id" = some idv := by
  cases hl : lookupField mfs "_id" with
  | none =>
      refine ⟨.jobj (setKey mfs "_id" idv), by simp, ?_⟩
      simp [propGet, lookup_setKey_self]
  | some mid =>
      cases he : jsStrictEq mid idv with
      | false =>
          refine ⟨.jobj (setKey mfs "_id" idv), by simp [he], ?_⟩
          simp [propGet, lookup_setKey_self]
      | true =>
          refine ⟨.jobj mfs, by simp [he], ?_⟩
          have hmid : mid = idv := jsStrictEq_eq he
          simp [propGet, hl, hmid]

theorem updateOneDoc_preserves_truthy_id {d idv : JVal} {upd : Collection.UpdateArg}
    (hid : propGet d "_id" = some idv) (ht : idv.truthy = true) (hupd : updOk upd) :
    ∃ nd : JVal, Collection.updateOneDoc d upd = .ok nd
      ∧ propGet nd "_id" = some idv := by
  cases upd with
  | data u =>
      obtain ⟨nd, h1, h2⟩ := restore_branch_id (mergeFields (spreadFields d) u) idv
      refine ⟨nd, ?_, h2⟩
      rw [Collection.updateOneDoc, hid]
      simp only [ht, if_pos rfl]
      exact h1
  | fn f =>
      obtain ⟨gs, hf⟩ := hupd d
      obtain ⟨nd, h1, h2⟩ := restore_branch_id gs idv
      refine ⟨nd, ?_, h2⟩
      rw [Collection.updateOneDoc, hid]
      simp only [hf, ht, if_pos rfl]
      exact h1

theorem upsertDoc_ok {q : JVal} {upd : Collection.UpdateArg} {gen : Nat → String}
    (hupd : updOk upd) : ∃ nd : JVal, Collection.upsertDoc q upd gen = .ok nd := by
  cases upd with
  | data u => exact ⟨_, rfl⟩
  | fn f =>
      obtain ⟨gs, hf⟩ := hupd (.jobj (spreadFields q))
      refine ⟨.jobj (if (lookupField (Collection.fillMissing gs (spreadFields q)) "_id").isNone
          then setKey (Collection.fillMissing gs (spreadFields q)) "_id" (.jstr (gen 0))
          else Collection.fillMissing gs (spreadFields q)), ?_⟩
      rw [Collection.upsertDoc, hf]

theorem updateRev_preserves_id {q : JVal} {upd : Collection.UpdateArg} {m : Bool}
    (hupd : updOk upd) :
    ∀ l : List JVal,
      (∀ dd ∈ l, matchesQuery dd q = true →
        ∃ idv : JVal, propGet dd "_id" = some idv ∧ idv.truthy = true) →
      ∃ (r s : List JVal) (c : Nat),
        Collection.updateRev q upd m l = .ok (r, c, s)
          ∧ List.Forall₂ (fun dd nd => propGet nd "_id" = propGet dd "_id") l r := by
  intro l
  induction l with
  | nil => exact fun _ => ⟨[], [], 0, rfl, List.Forall₂.nil⟩
  | cons d rest ih =>
      intro hl
      obtain ⟨r, s, c, hok, hrel⟩ := ih (fun x hx => hl x (by simp [hx]))
      cases hm : matchesQuery d q with
      | false =>
          refine ⟨d :: r, s, c, ?_, List.Forall₂.cons rfl hrel⟩
          rw [Collection.updateRev, hm]
          simp [hok]
      | true =>
          obtain ⟨idv, hid, ht⟩ := hl d (by simp) hm
          obtain ⟨nd, hnd, hpres⟩ := updateOneDoc_preserves_truthy_id hid ht hupd
          have hR : propGet nd "_id" = propGet d "_id" := by rw [hpres, hid]
          cases m with
          | false =>
              refine ⟨nd :: rest, [nd], 1, ?_, List.Forall₂.cons hR ?_⟩
              · rw [Collection.updateRev, hm]
                simp [hnd]
              · exact List.forall₂_same.mpr (fun x _ => rfl)
          | true =>
              refine ⟨nd :: r, nd :: s, c + 1, ?_, List.Forall₂.cons hR hrel⟩
              rw [Collection.updateRev, hm]
              simp [hnd, hok]

/-- C5 (corrected), counterexample.  A matched document whose caller-supplied
`_id` is the falsy value `0` does not keep its `_id`: the restore guard
`if (originalDocCopy._id && ...)` skips falsy ids, so an update payload that
overwrites `_id` wins, and re-fetching by the original `_id` afterwards finds
nothing. -/
theorem C5_counterexample :
    Collection.update [.jobj [("_id", .jnum 0), ("a", .jnum 1)]]
        (.jobj [("a", .jnum 1)]) (.data [("_id", .jnum 99)]) false false
        (fun _ => "gid")
      = .ok ([.jobj [("_id", .jnum 99), ("a", .jnum 1)]], 1,
             [.jobj [("_id", .jnum 99), ("a", .jnum 1)]])
      ∧ Collection.findOne [.jobj [("_id", .jnum 99), ("a", .jnum 1)]]
          (.jobj [("_id", .jnum 0)]) = none :=
  ⟨rfl, rfl⟩

/-- C5 (corrected), amended claim.  For every document matched by `update`
whose original `_id` is truthy (in particular every generated string id), the
replacement document stored at the same position keeps that `_id`, even when
the update object or the (object-returning) transform omits or changes it;
documents with falsy caller-supplied ids (`0`, `''`, `false`, `null`) are not
protected. -/
theorem C5_update_preserves_truthy_id
    (docs : List JVal) (q : JVal) (upd : Collection.UpdateArg) (m upx : Bool)
    (gen : Nat → String)
    (hids : ∀ dd ∈ docs, matchesQuery dd q = true →
      ∃ idv : JVal, propGet dd "_id" = some idv ∧ idv.truthy = true)
    (hupd : updOk upd) :
    ∃ (docs2 extra s : List JVal) (c : Nat),
      Collection.update docs q upd m upx gen = .ok (docs2 ++ extra, c, s)
        ∧ List.Forall₂ (fun dd nd => propGet nd "_id" = propGet dd "_id") docs docs2 := by
  obtain ⟨r, s, c, hok, hrel⟩ := updateRev_preserves_id hupd docs.reverse
    (fun x hx => hids x (List.mem_reverse.mp hx))
  have hrel2 : List.Forall₂ (fun dd nd => propGet nd "_id" = propGet dd "_id")
      docs r.reverse := by
    rw [← List.forall₂_reverse_iff]
    simpa using hrel
  rw [Collection.update, hok]
  dsimp only
  cases hcu : (decide (c = 0) && upx) with
  | false => exact ⟨r.reverse, [], s, c, by simp [hcu], hrel2⟩
  | true =>
      obtain ⟨nd, hnd⟩ := @upsertDoc_ok q upd gen hupd
      exact ⟨r.reverse, [nd], s ++ [nd], 1, by simp [hcu, hnd], hrel2⟩

/-- Closed witness for `C5_update_preserves_truthy_id`: a one-document
collection with the truthy id `"i1"`, updated by a payload that tries to
overwrite `_id`. -/
theorem C5_witness :
    ∃ (docs2 extra s : List JVal) (c : Nat),
      Collection.update [.jobj [("_id", .jstr "i1"), ("a", .jnum 1)]]
          (.jobj [("a", .jnum 1)]) (.data [("_id", .jstr "zzz")]) false false
          (fun _ => "gid")
        = .ok (docs2 ++ extra, c, s)
        ∧ List.Forall₂ (fun dd nd => propGet nd "_id" = propGet dd "_id")
            [.jobj [("_id", .jstr "i1"), ("a", .jnum 1)]] docs2 :=
  C5_update_preserves_truthy_id [.jobj [("_id", .jstr "i1"), ("a", .jnum 1)]]
    (.jobj [("a", .jnum 1)]) (.data [("_id", .jstr "zzz")]) false false
    (fun _ => "gid")
    (by
      intro dd hdd hm
      rw [List.mem_singleton] at hdd
      subst hdd
      exact ⟨.jstr "i1", rfl, rfl⟩)
    trivial

/-! ### Claim C8: absence of runtime exceptions -/

/-- C8 (corrected), counterexample.  Two operations of the core do raise:
`store.get` with a non-string key path throws a `TypeError` from
`keyPath.split('.')`, and `update` with a transform function that returns
`undefined` throws a `TypeError` when the `_id`-restore guard reads `._id`
off the `undefined` result.  Neither is a documented caller-input error. -/
theorem C8_counterexample :
    store.getDyn (.jobj []) (.jnum 5) .jnull
        = .error "TypeError: keyPath.split is not a function"
      ∧ Collection.update [.jobj [("_id", .jstr "i1"), ("a", .jnum 1)]]
          (.jobj [("a", .jnum 1)]) (.fn fun _ => none) false false (fun _ => "gid")
        = .error "TypeError: reading _id of undefined" :=
  ⟨rfl, rfl⟩

/-- C8 (corrected), amended claim.  Within the documented input domain the
core does not throw: `get` with a string key path always returns normally,
`update` with a plain data object always returns normally (for any query,
options and collection state), and a non-string collection name is rejected
with the documented caller-input error.  Outside that domain — a non-string
key path, or a transform returning a non-object — operations can raise
`TypeError`s, so the unqualified no-panic claim fails. -/
theorem C8_no_throw_on_documented_inputs :
    (∀ (root : JVal) (s : String) (d : JVal),
        ∃ v : JVal, store.getDyn root (.jstr s) d = .ok v)
      ∧ (∀ (docs : List JVal) (q : JVal) (u : List (String × JVal)) (m upx : Bool)
            (gen : Nat → String),
          ∃ (r s2 : List JVal) (c : Nat),
            Collection.update docs q (.data u) m upx gen = .ok (r, c, s2))
      ∧ (∀ n : Int, getCollectionName (.jnum n)
          = .error "DB: Collection name must be a non-empty string.") := by
  refine ⟨fun root s d => ⟨_, rfl⟩, ?_, fun n => rfl⟩
  intro docs q u m upx gen
  obtain ⟨r, s, c, hok, h1, h2, h3⟩ := updateRev_data q u m docs.reverse
  rw [Collection.update, hok]
  dsimp only
  cases hcu : (decide (c = 0) && upx) with
  | false => exact ⟨r.reverse, s, c, by simp [hcu]⟩
  | true =>
      obtain ⟨nd, hnd⟩ := @upsertDoc_ok q (Collection.UpdateArg.data u) gen trivial
      exact ⟨r.reverse ++ [nd], s ++ [nd], 1, by simp [hcu, hnd]⟩
